import Mathlib

/-!
Shallow embedding of the scrape-and-persist pipeline of
`reservoir_wrangler.py` (together with the configuration defaults of
`config.py`) from brazilian-waters/project_ana, and proofs about it.

Strings manipulated character by character are embedded as `List Char`;
Python's fallible operations are embedded as `Except`-valued functions.
-/

deriving instance DecidableEq for Except

namespace ReservoirWrangler

/-! ## String cleaning (`_Template._clean`) -/

/-- The whitespace characters recognised by Python's `str.strip()` and
no-argument `str.split()` (ASCII part; the scraped names contain no other
whitespace). -/
def isWsChar (c : Char) : Bool :=
  c = ' ' || c = '\t' || c = '\n' || c = '\x0b' || c = '\x0c' || c = '\r'

/-- `input_string.strip()`: drop leading and trailing whitespace. -/
def stripWs (s : List Char) : List Char :=
  ((s.dropWhile isWsChar).reverse.dropWhile isWsChar).reverse

/-- Worker for `str.split()` with no separator; `acc` holds the current
chunk reversed.  Whitespace runs separate chunks and produce no empty
chunks. -/
def splitWsAux : List Char → List Char → List (List Char)
  | [], acc => if acc.isEmpty then [] else [acc.reverse]
  | c :: cs, acc =>
    if isWsChar c then
      if acc.isEmpty then splitWsAux cs [] else acc.reverse :: splitWsAux cs []
    else
      splitWsAux cs (c :: acc)

/-- `out.split()`: split on whitespace runs, discarding empty chunks. -/
def splitWs (s : List Char) : List (List Char) := splitWsAux s []

/-- `"_".join(chunks)`. -/
def joinUnderscore : List (List Char) → List Char
  | [] => []
  | [w] => w
  | w :: ws => w ++ '_' :: joinUnderscore ws

/-- `str.lower()` restricted to the characters that can occur in the
scraped names (ASCII letters and the accented letters handled by
`_clean`); all other characters are fixed points. -/
def pyLower (c : Char) : Char :=
  match c with
  | 'A' => 'a' | 'B' => 'b' | 'C' => 'c' | 'D' => 'd' | 'E' => 'e'
  | 'F' => 'f' | 'G' => 'g' | 'H' => 'h' | 'I' => 'i' | 'J' => 'j'
  | 'K' => 'k' | 'L' => 'l' | 'M' => 'm' | 'N' => 'n' | 'O' => 'o'
  | 'P' => 'p' | 'Q' => 'q' | 'R' => 'r' | 'S' => 's' | 'T' => 't'
  | 'U' => 'u' | 'V' => 'v' | 'W' => 'w' | 'X' => 'x' | 'Y' => 'y'
  | 'Z' => 'z'
  | 'Á' => 'á' | 'Ã' => 'ã' | 'Â' => 'â' | 'É' => 'é' | 'Ê' => 'ê'
  | 'Í' => 'í' | 'Ó' => 'ó' | 'Õ' => 'õ' | 'Ô' => 'ô' | 'Ú' => 'ú'
  | 'Ç' => 'ç'
  | c => c

/-- One `str.replace(pat, rep)` call for a single-character pattern:
a character-wise substitution. -/
def substIf (pat rep : Char) (c : Char) : Char :=
  if c = pat then rep else c

/-- One `str.replace(pat, rep)` call applied to the whole string. -/
def replaceChar (pat rep : Char) (s : List Char) : List Char :=
  s.map (substIf pat rep)

/-- The chain of eleven `.replace` calls of `_clean`, in source order
(`'á'→'a'` first, `'ç'→'c'` last). -/
def applyReplaces (s : List Char) : List Char :=
  replaceChar 'ç' 'c' (replaceChar 'ú' 'u' (replaceChar 'ô' 'o'
    (replaceChar 'õ' 'o' (replaceChar 'ó' 'o' (replaceChar 'í' 'i'
      (replaceChar 'ê' 'e' (replaceChar 'é' 'e' (replaceChar 'â' 'a'
        (replaceChar 'ã' 'a' (replaceChar 'á' 'a' s))))))))))

/-- The per-character function computed by the replace chain (the chain's
patterns are single characters whose replacements never match a later
pattern, so the eleven maps compose into one). -/
def replComposite : Char → Char :=
  substIf 'ç' 'c' ∘ substIf 'ú' 'u' ∘ substIf 'ô' 'o' ∘ substIf 'õ' 'o' ∘
    substIf 'ó' 'o' ∘ substIf 'í' 'i' ∘ substIf 'ê' 'e' ∘ substIf 'é' 'e' ∘
      substIf 'â' 'a' ∘ substIf 'ã' 'a' ∘ substIf 'á' 'a'

/-- The error raised by `_clean` on a falsy (empty) input string: the
source raises `NotImplementedError("An empty string is not supported.")`. -/
inductive CleanError
  | emptyInput
deriving DecidableEq

/-- `_Template._clean`: strip, join the whitespace-split chunks with
underscores, lowercase, then replace the accented characters.  A falsy
(empty) input raises instead (modelled as `Except.error`). -/
def clean (s : List Char) : Except CleanError (List Char) :=
  if s.isEmpty then
    .error .emptyInput
  else
    .ok (applyReplaces ((joinUnderscore (splitWs (stripWs s))).map pyLower))

/-- The accented characters that `_clean` deals with (lower and upper
case). -/
def diacriticChars : List Char :=
  ['á', 'ã', 'â', 'é', 'ê', 'í', 'ó', 'õ', 'ô', 'ú', 'ç',
   'Á', 'Ã', 'Â', 'É', 'Ê', 'Í', 'Ó', 'Õ', 'Ô', 'Ú', 'Ç']

/-- `true` exactly on the accented characters of `diacriticChars`. -/
def isDiacritic (c : Char) : Bool :=
  diacriticChars.contains c

/-- The characters a valid raw name scraped from the site may contain:
ASCII letters (both cases), digits, the space, underscore, hyphen,
parentheses, and the accented letters the cleaner handles. -/
def rawAlphabet : List Char :=
  [' ', '_', '-', '(', ')',
   'a', 'b', 'c', 'd', 'e', 'f', 'g', 'h', 'i', 'j', 'k', 'l', 'm',
   'n', 'o', 'p', 'q', 'r', 's', 't', 'u', 'v', 'w', 'x', 'y', 'z',
   'A', 'B', 'C', 'D', 'E', 'F', 'G', 'H', 'I', 'J', 'K', 'L', 'M',
   'N', 'O', 'P', 'Q', 'R', 'S', 'T', 'U', 'V', 'W', 'X', 'Y', 'Z',
   '0', '1', '2', '3', '4', '5', '6', '7', '8', '9',
   'á', 'ã', 'â', 'é', 'ê', 'í', 'ó', 'õ', 'ô', 'ú', 'ç',
   'Á', 'Ã', 'Â', 'É', 'Ê', 'Í', 'Ó', 'Õ', 'Ô', 'Ú', 'Ç']

/-- A valid non-empty raw name: drawn from the site's name alphabet and
containing at least one non-whitespace character (a name that is nothing
but spaces is not a valid name). -/
def validName (s : List Char) : Prop :=
  (∀ c ∈ s, c ∈ rawAlphabet) ∧ ∃ c ∈ s, isWsChar c = false

/-- Character class of cleaned output: not whitespace, not accented, and
a fixed point of both lowercasing and the replace chain. -/
def cleanedChar (c : Char) : Bool :=
  !(isWsChar c) && !(isDiacritic c) && (pyLower c == c) && (replComposite c == c)

/-! ## Entity construction and `_Template.scrape` -/

/-- The state of `_Template.__init__`: the address is stored as given,
the name is stored cleaned, the optional code is stored as given.
`_clean` runs during construction; its error propagates. -/
structure TemplateState where
  address : List Char
  name : List Char
  code : Option (List Char)
deriving DecidableEq

/-- `_Template.__init__(address, name, code)`: stores the address and the
code and sets `self.name = self._clean(name)`; a `_clean` failure
propagates out of the constructor (nothing catches it). -/
def templateInit (address name : List Char) (code : Option (List Char)) :
    Except CleanError TemplateState :=
  match clean name with
  | .error e => .error e
  | .ok n => .ok ⟨address, n, code⟩

/-- An exception escaping a subclass `_parse` (for instance the
`AttributeError` when the expected tag is absent); its exact identity is
irrelevant to the control flow of `scrape`. -/
inductive ParseError
  | attributeError
deriving DecidableEq

/-- The mutable per-entity scrape state: the status set by `_download`
(absent before the first download) and the entity's row collection,
initialised empty by each subclass `__init__`. -/
structure EntityState where
  status : Option Nat
  rows : List (List String)
deriving DecidableEq

/-- `_Template.scrape`: `_download` records the fetched status; the page
is parsed if and only if the status is 200, the non-200 branch does
nothing (`pass`) and returns normally.  `fetchedStatus` is the status the
transport returned for this entity and `parsed` the outcome the
subclass `_parse` would produce on the fetched content. -/
def templateScrape (fetchedStatus : Nat)
    (parsed : Except ParseError (List (List String))) (s : EntityState) :
    Except ParseError EntityState :=
  let s1 : EntityState := { s with status := some fetchedStatus }
  if fetchedStatus = 200 then
    match parsed with
    | .ok rows => .ok { s1 with rows := s1.rows ++ rows }
    | .error e => .error e
  else
    .ok s1

/-! ## History parsing (`_HistoryOfReservoir`) -/

/-- The three SAR system kinds, i.e. the keys of
`_HistoryOfReservoir.__PARSING_MAP` (cleaned system names). -/
inductive SystemKind
  | nordeste_e_semiarido
  | sin
  | sistema_cantareira
deriving DecidableEq

/-- The cleaned system-name string a `SystemKind` stands for; it is also
the name given to the row namedtuple of `_HistoryOfReservoir._row`. -/
def kindRowName : SystemKind → String
  | .nordeste_e_semiarido => "nordeste_e_semiarido"
  | .sin => "sin"
  | .sistema_cantareira => "sistema_cantareira"

/-- `_HistoryOfReservoir.__PARSING_MAP`: for each system kind the ordered
field-name/selector (`td` class) pairs, in source (insertion) order. -/
def PARSING_MAP : SystemKind → List (String × String)
  | .nordeste_e_semiarido =>
    [("capacity_hm3", "text-center coluna_4"),
     ("level_m", "text-center coluna_3"),
     ("volume_hm3", "text-center coluna_5"),
     ("volume_100", "text-center coluna_6"),
     ("date", "text-center coluna_7")]
  | .sin =>
    [("level_m", "text-center coluna_3"),
     ("influx_m3_s", "text-center coluna_4"),
     ("defluence_m3_s", "text-center coluna_5"),
     ("poured_flow_rate_m3_s", "text-center coluna_6"),
     ("turbined_flow_rate_m3_s", "text-center coluna_7"),
     ("natural_flow_rate_m2_s", "text-center coluna_5"),
     ("useful_volume_100", "text-center coluna_9"),
     ("incremental_flow_rate_m3_s", "text-center coluna_11"),
     ("date", "text-center coluna_13")]
  | .sistema_cantareira =>
    [("level_m", "text-center coluna_3"),
     ("useful_volume_hm3", "text-center coluna_4"),
     ("useful_volume_100", "text-center coluna_5"),
     ("influx_m3_s", "text-center coluna_6"),
     ("defluence_m3_s", "text-center coluna_7"),
     ("date", "text-center coluna_8")]

/-- Index of a field name in the parsing map of one system kind. -/
def fieldIndex (k : SystemKind) (field : String) : Nat :=
  (PARSING_MAP k).findIdx (fun p => p.1 == field)

/-- A fetched history page, abstracted (as the spec directs) to the
text extraction it supports: for a `td` class selector, the texts of the
matching cells of the `tbody` in document order — the result of
`[v.text for v in results.find_all('td', class_=selector)]`. -/
def Page : Type := String → List String

/-- The field-major extraction of `_HistoryOfReservoir._parse`: one list
of cell texts per parsing-map entry, in map order. -/
def historyColumns (k : SystemKind) (page : Page) : List (List String) :=
  (PARSING_MAP k).map (fun ft => page ft.2)

/-- The number of rows Python's `zip(*lists)` produces: the shortest
list's length (`0` for no lists). -/
def minLen (ls : List (List String)) : Nat :=
  match ls with
  | [] => 0
  | l :: rest => rest.foldl (fun m l2 => min m l2.length) l.length

/-- Python's `zip(*lists)` on a list of lists: element `i` of row `j` is
element `j` of list `i`; rows stop at the shortest list. -/
def pyZip (ls : List (List String)) : List (List String) :=
  (List.range (minLen ls)).map (fun i => ls.map (fun l => l.getD i ""))

/-- `_HistoryOfReservoir._parse`: extract each mapped field's cells into
`self.__history` (field-major), append a reservoir-name column sized by
the first field's match count (`len(self.__history[0])`), transpose with
`zip(*...)`, and build one namedtuple per transposed row (each row is the
field values in map order followed by the reservoir name). -/
def historyParse (k : SystemKind) (page : Page) (name : String) :
    List (List String) :=
  let cols := historyColumns k page
  pyZip (cols ++ [List.replicate (cols.headD []).length name])

/-! ## Configuration (`config.py`) and persistence (`_Template.to_disk`,
`_DataBase.write_data`) -/

/-- The recognised configuration keys. -/
structure Config where
  DIR : String
  JSON : Bool
  SQLITE3 : Bool
  PICKLE : Bool
  CSV : Bool
deriving DecidableEq

/-- `config.DEFAULTS`: used verbatim when no `config.json` is present,
and to fill any missing key otherwise. -/
def DEFAULTS : Config :=
  { DIR := "__output__", JSON := true, SQLITE3 := true,
    PICKLE := true, CSV := true }

/-- `str.upper()` restricted to ASCII lowercase letters (table names are
built from cleaned namedtuple names, which are ASCII); all other
characters are fixed points. -/
def pyUpperChar (c : Char) : Char :=
  match c with
  | 'a' => 'A' | 'b' => 'B' | 'c' => 'C' | 'd' => 'D' | 'e' => 'E'
  | 'f' => 'F' | 'g' => 'G' | 'h' => 'H' | 'i' => 'I' | 'j' => 'J'
  | 'k' => 'K' | 'l' => 'L' | 'm' => 'M' | 'n' => 'N' | 'o' => 'O'
  | 'p' => 'P' | 'q' => 'Q' | 'r' => 'R' | 's' => 'S' | 't' => 'T'
  | 'u' => 'U' | 'v' => 'V' | 'w' => 'W' | 'x' => 'X' | 'y' => 'Y'
  | 'z' => 'Z'
  | c => c

/-- `s.upper()` on a whole string. -/
def pyUpper (s : String) : String :=
  String.mk (s.data.map pyUpperChar)

/-- `_Template._get_file_name(folder, extension)`:
`os.path.join(folder, ".".join([self.name, extension]))`; with a relative
second component `os.path.join` inserts one separator. -/
def get_file_name (name folder extension : String) : String :=
  folder ++ "/" ++ (name ++ "." ++ extension)

/-- The errors `to_disk` / `write_data` can raise on the modelled paths:
`IndexError` from subscripting row zero of an empty row collection
(`__list[0]` in `write_data`, `__data[0]` in the CSV branch). -/
inductive DiskError
  | indexError
deriving DecidableEq

/-- One completed write of `to_disk`, recording the file it targets (and,
for the SQLite store, the table name and how many rows were inserted). -/
inductive WriteEvent
  | sqlite (file table : String) (rowsWritten : Nat)
  | json (file : String)
  | pickle (file : String)
  | csv (file : String)
deriving DecidableEq

/-- `_DataBase.write_data(__list)` on the store file `dbFile`: reads the
table name from `__list[0]` — an `IndexError` when the list is empty —
uppercases it, creates the table if absent and inserts every row.
`rowTypeName` is the namedtuple type name of the rows (the entity-kind
name), which the source reads off the first row. -/
def write_data (dbFile : String) (rowTypeName : String)
    (rows : List (List String)) : Except DiskError WriteEvent :=
  match rows with
  | [] => .error .indexError
  | _ :: _ => .ok (.sqlite dbFile (pyUpper rowTypeName) rows.length)

/-- `_Template.to_disk(cfg)` for an entity with cleaned name `name` whose
rows are namedtuples of type `rowTypeName`: the SQLite branch writes the
store `<DIR>/<name>.db`, then the JSON, pickle and CSV branches write
`<DIR>/<name>.<ext>`; the CSV writer reads its header from
`__data[0].keys()` — an `IndexError` when there are zero rows. -/
def to_disk (cfg : Config) (name rowTypeName : String)
    (rows : List (List String)) : Except DiskError (List WriteEvent) :=
  let part1 : Except DiskError (List WriteEvent) :=
    if cfg.SQLITE3 then
      match write_data (get_file_name name cfg.DIR "db") rowTypeName rows with
      | .error e => .error e
      | .ok ev => .ok [ev]
    else .ok []
  match part1 with
  | .error e => .error e
  | .ok evs1 =>
    if cfg.JSON || cfg.PICKLE || cfg.CSV then
      let evs2 := evs1 ++
        (if cfg.JSON then [WriteEvent.json (get_file_name name cfg.DIR "json")] else [])
      let evs3 := evs2 ++
        (if cfg.PICKLE then [WriteEvent.pickle (get_file_name name cfg.DIR "pickle")] else [])
      if cfg.CSV then
        match rows with
        | [] => .error .indexError
        | _ :: _ => .ok (evs3 ++ [WriteEvent.csv (get_file_name name cfg.DIR "csv")])
      else .ok evs3
    else .ok evs1

/-! ## The history stage (`scrape_history_of_reservoir`, step 3 of
`scrape`) -/

/-- The inputs one history task works from: the owning system's kind, the
reservoir's cleaned name, the status its fetch returns and the page the
transport serves. -/
structure HistoryFetch where
  kind : SystemKind
  name : String
  status : Nat
  page : Page

/-- `scrape_history_of_reservoir(cfg, res)`: builds the entity, scrapes
it (rows are parsed only on status 200, otherwise the collection stays
empty) and persists it with `to_disk`. -/
def scrape_history_of_reservoir (cfg : Config) (t : HistoryFetch) :
    Except DiskError (List WriteEvent) :=
  let rows := if t.status = 200 then historyParse t.kind t.page t.name else []
  to_disk cfg t.name (kindRowName t.kind) rows

/-- Step 3 of `scrape`: every reservoir's history task is submitted to
the bounded pool.  An exception inside a submitted task is captured in
its `Future`; `scrape` never calls `Future.result()`, so a task's
exception is never re-raised into the run — each task therefore yields
one captured outcome and the run continues past all of them. -/
def historyStage (cfg : Config) (tasks : List HistoryFetch) :
    List (Except DiskError (List WriteEvent)) :=
  tasks.map (scrape_history_of_reservoir cfg)

/-- How many rows a task's captured outcome actually inserted into the
SQLite store (zero when the task's persist raised before inserting). -/
def sqliteRowsWritten : Except DiskError (List WriteEvent) → Nat
  | .error _ => 0
  | .ok evs =>
    (evs.map (fun ev => match ev with
      | .sqlite _ _ n => n
      | _ => 0)).sum

/-- `true` when a history page yields at least one cell for every mapped
field of the reservoir's system kind. -/
def pageComplete (t : HistoryFetch) : Bool :=
  (PARSING_MAP t.kind).all (fun ft => decide (0 < (t.page ft.2).length))

/-! ## Concurrency structure of step 3 (`scrape`) -/

/-- `MAX_WORKERS = min(32, os.cpu_count() + 4)`. -/
def MAX_WORKERS (cpuCount : Nat) : Nat := min 32 (cpuCount + 4)

/-- The two `return_when` policies of `concurrent.futures.wait`. -/
inductive ReturnWhen
  | FIRST_COMPLETED
  | ALL_COMPLETED
deriving DecidableEq

/-- When `concurrent.futures.wait(futures, return_when=rw)` is unblocked,
as a function of how many of the `total` submitted futures have
completed: `FIRST_COMPLETED` needs one completion (or no futures at
all), `ALL_COMPLETED` needs all of them. -/
def waitReturns (rw : ReturnWhen) (completed total : Nat) : Bool :=
  match rw with
  | .FIRST_COMPLETED => min 1 total ≤ completed
  | .ALL_COMPLETED => total ≤ completed

/-- Leaving the `with ThreadPoolExecutor(...) as e:` block calls
`e.shutdown(wait=True)`, which joins every worker thread: it is unblocked
only once every submitted task has been executed. -/
def executorExitReturns (completed total : Nat) : Bool :=
  total ≤ completed

/-- Step 3's exit condition: `scrape` runs
`concurrent.futures.wait(futures_not_done, return_when=FIRST_COMPLETED)`
*inside* the `with` block, so it reaches the closing `print` statements
only once both the wait call and the implicit `shutdown(wait=True)` of
the `with` exit are unblocked. -/
def historyStageReturned (completed total : Nat) : Bool :=
  waitReturns .FIRST_COMPLETED completed total &&
    executorExitReturns completed total

/-- State of the bounded pool of step 3: tasks submitted but not yet
started, tasks in flight (each performs the fetch of one reservoir's
history) and tasks finished. -/
structure PoolState where
  queued : Nat
  running : Nat
  finished : Nat
deriving DecidableEq

/-- The pool right after `scrape` submits one task per reservoir. -/
def poolStart (reservoirCount : Nat) : PoolState :=
  ⟨reservoirCount, 0, 0⟩

/-- One scheduling step of `ThreadPoolExecutor(max_workers=bound)`: a
queued task may start only while fewer than `bound` tasks are in flight
(there are only `bound` worker threads, each running at most one task);
an in-flight task may finish. -/
inductive PoolStep (bound : Nat) : PoolState → PoolState → Prop
  | start (q r f : Nat) : r < bound →
      PoolStep bound ⟨q + 1, r, f⟩ ⟨q, r + 1, f⟩
  | finish (q r f : Nat) :
      PoolStep bound ⟨q, r + 1, f⟩ ⟨q, r, f + 1⟩

/-- The pool states reachable from `s0` by scheduling steps. -/
inductive PoolReachable (bound : Nat) (s0 : PoolState) : PoolState → Prop
  | refl : PoolReachable bound s0 s0
  | step {s t : PoolState} : PoolReachable bound s0 s → PoolStep bound s t →
      PoolReachable bound s0 t

/-! ## Lemmas about the cleaning pipeline -/

theorem applyReplaces_eq_map (s : List Char) :
    applyReplaces s = s.map replComposite := by
  simp [applyReplaces, replaceChar, replComposite, List.map_map]

theorem dropWhile_eq_self_of_all {p : Char → Bool} {s : List Char}
    (h : ∀ c ∈ s, p c = false) : s.dropWhile p = s := by
  cases s with
  | nil => rfl
  | cons a t => rw [List.dropWhile_cons, h a (by simp)]; simp

theorem mem_dropWhile_of_mem {p : Char → Bool} {s : List Char} {c : Char}
    (hc : c ∈ s) (hp : p c = false) : c ∈ s.dropWhile p := by
  induction s with
  | nil => simp at hc
  | cons a t ih =>
    rw [List.dropWhile_cons]
    by_cases ha : p a = true
    · rw [if_pos ha]
      rcases List.mem_cons.mp hc with rfl | h
      · rw [hp] at ha; exact absurd ha (by simp)
      · exact ih h
    · rw [if_neg ha]; exact hc

theorem mem_of_mem_stripWs {s : List Char} {c : Char}
    (h : c ∈ stripWs s) : c ∈ s := by
  unfold stripWs at h
  rw [List.mem_reverse] at h
  have h2 := (List.dropWhile_sublist isWsChar).mem h
  rw [List.mem_reverse] at h2
  exact (List.dropWhile_sublist isWsChar).mem h2

theorem stripWs_eq_self_of_all {s : List Char}
    (h : ∀ c ∈ s, isWsChar c = false) : stripWs s = s := by
  unfold stripWs
  rw [dropWhile_eq_self_of_all h,
      dropWhile_eq_self_of_all (by intro c hc; exact h c (List.mem_reverse.mp hc)),
      List.reverse_reverse]

theorem mem_stripWs_of_mem {s : List Char} {c : Char}
    (hc : c ∈ s) (hw : isWsChar c = false) : c ∈ stripWs s := by
  unfold stripWs
  rw [List.mem_reverse]
  exact mem_dropWhile_of_mem
    (List.mem_reverse.mpr (mem_dropWhile_of_mem hc hw)) hw

theorem splitWsAux_chunk_ne_nil (s : List Char) :
    ∀ acc w, w ∈ splitWsAux s acc → w ≠ [] := by
  induction s with
  | nil =>
    intro acc w hw
    unfold splitWsAux at hw
    by_cases hacc : acc.isEmpty
    · simp [hacc] at hw
    · rw [if_neg hacc] at hw
      rcases List.mem_singleton.mp hw with rfl
      simpa [List.isEmpty_iff] using hacc
  | cons a t ih =>
    intro acc w hw
    unfold splitWsAux at hw
    by_cases ha : isWsChar a = true
    · rw [if_pos ha] at hw
      by_cases hacc : acc.isEmpty
      · rw [if_pos hacc] at hw; exact ih [] w hw
      · rw [if_neg hacc] at hw
        rcases List.mem_cons.mp hw with rfl | h
        · simpa [List.isEmpty_iff] using hacc
        · exact ih [] w h
    · rw [if_neg ha] at hw
      exact ih (a :: acc) w hw

theorem splitWsAux_mem (s : List Char) :
    ∀ acc, (∀ c ∈ acc, isWsChar c = false) →
      ∀ w ∈ splitWsAux s acc, ∀ c ∈ w, (c ∈ s ∨ c ∈ acc) ∧ isWsChar c = false := by
  induction s with
  | nil =>
    intro acc hacc w hw c hc
    unfold splitWsAux at hw
    by_cases he : acc.isEmpty
    · simp [he] at hw
    · rw [if_neg he] at hw
      rcases List.mem_singleton.mp hw with rfl
      have : c ∈ acc := List.mem_reverse.mp hc
      exact ⟨Or.inr this, hacc c this⟩
  | cons a t ih =>
    intro acc hacc w hw c hc
    unfold splitWsAux at hw
    by_cases ha : isWsChar a = true
    · rw [if_pos ha] at hw
      have from_tail : w ∈ splitWsAux t [] →
          (c ∈ a :: t ∨ c ∈ acc) ∧ isWsChar c = false := by
        intro h
        have := ih [] (by simp) w h c hc
        rcases this with ⟨h1 | h1, h2⟩
        · exact ⟨Or.inl (List.mem_cons_of_mem a h1), h2⟩
        · simp at h1
      by_cases he : acc.isEmpty
      · rw [if_pos he] at hw; exact from_tail hw
      · rw [if_neg he] at hw
        rcases List.mem_cons.mp hw with rfl | h
        · have : c ∈ acc := List.mem_reverse.mp hc
          exact ⟨Or.inr this, hacc c this⟩
        · exact from_tail h
    · rw [if_neg ha] at hw
      have hacc2 : ∀ c ∈ a :: acc, isWsChar c = false := by
        intro d hd
        rcases List.mem_cons.mp hd with rfl | hd2
        · simpa using ha
        · exact hacc d hd2
      have := ih (a :: acc) hacc2 w hw c hc
      rcases this with ⟨h1 | h1, h2⟩
      · exact ⟨Or.inl (List.mem_cons_of_mem a h1), h2⟩
      · rcases List.mem_cons.mp h1 with rfl | h3
        · exact ⟨Or.inl (by simp), h2⟩
        · exact ⟨Or.inr h3, h2⟩

theorem splitWsAux_ne_nil (s : List Char) :
    ∀ acc, (∃ c ∈ s, isWsChar c = false) ∨ acc ≠ [] → splitWsAux s acc ≠ [] := by
  induction s with
  | nil =>
    intro acc h
    rcases h with ⟨c, hc, _⟩ | h
    · simp at hc
    · unfold splitWsAux
      rw [if_neg (by simpa [List.isEmpty_iff] using h)]
      simp
  | cons a t ih =>
    intro acc h
    unfold splitWsAux
    by_cases ha : isWsChar a = true
    · rw [if_pos ha]
      by_cases he : acc.isEmpty
      · rw [if_pos he]
        apply ih []
        left
        rcases h with ⟨c, hc, hw⟩ | hne
        · rcases List.mem_cons.mp hc with rfl | h2
          · rw [ha] at hw; exact absurd hw (by simp)
          · exact ⟨c, h2, hw⟩
        · exact absurd (List.isEmpty_iff.mp he) hne
      · rw [if_neg he]; simp
    · rw [if_neg ha]
      exact ih (a :: acc) (Or.inr (by simp))

theorem splitWsAux_of_all (s : List Char) :
    ∀ acc, (∀ c ∈ s, isWsChar c = false) →
      splitWsAux s acc =
        if acc.isEmpty && s.isEmpty then [] else [acc.reverse ++ s] := by
  induction s with
  | nil =>
    intro acc _
    unfold splitWsAux
    by_cases he : acc.isEmpty
    · simp [he]
    · simp [he]
  | cons a t ih =>
    intro acc h
    have ha : isWsChar a = false := h a (by simp)
    unfold splitWsAux
    rw [if_neg (by simp [ha])]
    rw [ih (a :: acc) (fun c hc => h c (List.mem_cons_of_mem a hc))]
    simp

theorem mem_joinUnderscore {ws : List (List Char)} {c : Char}
    (h : c ∈ joinUnderscore ws) : c = '_' ∨ ∃ w ∈ ws, c ∈ w := by
  induction ws with
  | nil => simp [joinUnderscore] at h
  | cons w rest ih =>
    cases rest with
    | nil =>
      right
      exact ⟨w, by simp, by simpa [joinUnderscore] using h⟩
    | cons y zs =>
      have heq : joinUnderscore (w :: y :: zs) =
          w ++ '_' :: joinUnderscore (y :: zs) := rfl
      rw [heq] at h
      rcases List.mem_append.mp h with h1 | h1
      · exact Or.inr ⟨w, by simp, h1⟩
      · rcases List.mem_cons.mp h1 with rfl | h2
        · exact Or.inl rfl
        · rcases ih h2 with h3 | ⟨v, hv, hcv⟩
          · exact Or.inl h3
          · exact Or.inr ⟨v, List.mem_cons_of_mem w hv, hcv⟩

theorem joinUnderscore_ne_nil {ws : List (List Char)} (hne : ws ≠ [])
    (hw : ∀ w ∈ ws, w ≠ []) : joinUnderscore ws ≠ [] := by
  cases ws with
  | nil => exact absurd rfl hne
  | cons w rest =>
    cases rest with
    | nil => simpa [joinUnderscore] using hw w (by simp)
    | cons y zs =>
      have heq : joinUnderscore (w :: y :: zs) =
          w ++ '_' :: joinUnderscore (y :: zs) := rfl
      rw [heq]
      simp

set_option maxRecDepth 10000 in
/-- Every character of the site's name alphabet that is not whitespace is
sent by lowercasing followed by the replace chain into the cleaned
character class. -/
theorem rawAlphabet_cleaned : ∀ d ∈ rawAlphabet, isWsChar d = false →
    cleanedChar (replComposite (pyLower d)) = true := by decide

theorem clean_chars {x y : List Char} (hx : ∀ c ∈ x, c ∈ rawAlphabet)
    (h : clean x = .ok y) : ∀ c ∈ y, cleanedChar c = true := by
  unfold clean at h
  by_cases he : x.isEmpty
  · rw [if_pos he] at h; exact absurd h (by simp)
  · rw [if_neg he] at h
    have hbody := Except.ok.inj h
    intro c hc
    rw [← hbody, applyReplaces_eq_map] at hc
    rcases List.mem_map.mp hc with ⟨e, he, rfl⟩
    rcases List.mem_map.mp he with ⟨d, hd, rfl⟩
    rcases mem_joinUnderscore hd with rfl | ⟨w, hw, hdw⟩
    · decide
    · have h5 := splitWsAux_mem (stripWs x) [] (by simp) w hw d hdw
      obtain ⟨h6, hnws⟩ := h5
      rcases h6 with hmem | hmem
      · exact rawAlphabet_cleaned d (hx d (mem_of_mem_stripWs hmem)) hnws
      · simp at hmem

theorem clean_ne_nil {x y : List Char} (hz : ∃ c ∈ x, isWsChar c = false)
    (h : clean x = .ok y) : y ≠ [] := by
  unfold clean at h
  by_cases he : x.isEmpty
  · rw [if_pos he] at h; exact absurd h (by simp)
  · rw [if_neg he] at h
    have hbody := Except.ok.inj h
    subst hbody
    rcases hz with ⟨c, hc, hw⟩
    have hchunks : splitWs (stripWs x) ≠ [] :=
      splitWsAux_ne_nil (stripWs x) []
        (Or.inl ⟨c, mem_stripWs_of_mem hc hw, hw⟩)
    have hj : joinUnderscore (splitWs (stripWs x)) ≠ [] :=
      joinUnderscore_ne_nil hchunks
        (fun w hw2 => splitWsAux_chunk_ne_nil (stripWs x) [] w hw2)
    rw [applyReplaces_eq_map]
    simpa using hj

theorem clean_of_cleaned {y : List Char} (hne : y ≠ [])
    (hy : ∀ c ∈ y, cleanedChar c = true) : clean y = .ok y := by
  have hnws : ∀ c ∈ y, isWsChar c = false := by
    intro c hc
    have := hy c hc
    unfold cleanedChar at this
    simp only [Bool.and_eq_true, Bool.not_eq_true'] at this
    exact this.1.1.1
  have hlower : ∀ c ∈ y, pyLower c = c := by
    intro c hc
    have := hy c hc
    unfold cleanedChar at this
    simp only [Bool.and_eq_true, beq_iff_eq] at this
    exact this.1.2
  have hrepl : ∀ c ∈ y, replComposite c = c := by
    intro c hc
    have := hy c hc
    unfold cleanedChar at this
    simp only [Bool.and_eq_true, beq_iff_eq] at this
    exact this.2
  unfold clean
  rw [if_neg (by simpa [List.isEmpty_iff] using hne)]
  rw [stripWs_eq_self_of_all hnws]
  unfold splitWs
  rw [splitWsAux_of_all y [] hnws]
  rw [if_neg (by simpa [List.isEmpty_iff] using hne)]
  have hjoin : joinUnderscore [List.reverse [] ++ y] = y := by
    simp [joinUnderscore]
  rw [hjoin]
  rw [List.map_congr_left hlower, List.map_id']
  rw [applyReplaces_eq_map, List.map_congr_left hrepl, List.map_id']

/-! ## Lemmas about history parsing -/

theorem pyZip_length (ls : List (List String)) :
    (pyZip ls).length = minLen ls := by
  simp [pyZip]

theorem pyZip_mem {ls : List (List String)} {row : List String}
    (h : row ∈ pyZip ls) :
    ∃ i, row = ls.map (fun l => l.getD i "") := by
  rcases List.mem_map.mp h with ⟨i, _, rfl⟩
  exact ⟨i, rfl⟩

theorem foldl_min_le (rest : List (List String)) :
    ∀ a : Nat, rest.foldl (fun m l2 => min m l2.length) a ≤ a := by
  induction rest with
  | nil => intro a; simp
  | cons r rs ih =>
    intro a
    calc (r :: rs).foldl (fun m l2 => min m l2.length) a
        = rs.foldl (fun m l2 => min m l2.length) (min a r.length) := rfl
      _ ≤ min a r.length := ih _
      _ ≤ a := Nat.min_le_left _ _

theorem foldl_min_pos (rest : List (List String)) :
    ∀ a : Nat, 0 < a → (∀ l ∈ rest, 0 < l.length) →
      0 < rest.foldl (fun m l2 => min m l2.length) a := by
  induction rest with
  | nil => intro a ha _; simpa using ha
  | cons r rs ih =>
    intro a ha h
    have hr : 0 < r.length := h r (by simp)
    exact ih (min a r.length) (by omega)
      (fun l hl => h l (List.mem_cons_of_mem r hl))

/-- Appending one more column whose length equals the first column's
length does not change the zip row count. -/
theorem minLen_append_head (c0 : List String) (rest : List (List String))
    (x : List String) (hx : x.length = c0.length) :
    minLen ((c0 :: rest) ++ [x]) = minLen (c0 :: rest) := by
  show (rest ++ [x]).foldl (fun m l2 => min m l2.length) c0.length
      = rest.foldl (fun m l2 => min m l2.length) c0.length
  rw [List.foldl_append]
  show min (rest.foldl (fun m l2 => min m l2.length) c0.length) x.length
      = rest.foldl (fun m l2 => min m l2.length) c0.length
  rw [hx]
  exact Nat.min_eq_left (foldl_min_le rest c0.length)

theorem PARSING_MAP_ne_nil (k : SystemKind) : PARSING_MAP k ≠ [] := by
  cases k <;> simp [PARSING_MAP]

/-! ## Lemmas about persistence -/

/-- Persisting an empty row collection under the default configuration
ends in the `IndexError` of row-zero subscripting. -/
theorem to_disk_default_empty (name rowTypeName : String) :
    to_disk DEFAULTS name rowTypeName [] = .error .indexError := rfl

/-- Persisting a non-empty row collection: one write per enabled format,
each to `<DIR>/<name>.<ext>`, the SQLite one to the table named by the
uppercased row-type name. -/
theorem to_disk_writes (cfg : Config) (name rowTypeName : String)
    (rows : List (List String)) (h : rows ≠ []) :
    to_disk cfg name rowTypeName rows = .ok (
      (if cfg.SQLITE3 then
        [WriteEvent.sqlite (get_file_name name cfg.DIR "db")
          (pyUpper rowTypeName) rows.length]
       else []) ++
      (if cfg.JSON then
        [WriteEvent.json (get_file_name name cfg.DIR "json")] else []) ++
      (if cfg.PICKLE then
        [WriteEvent.pickle (get_file_name name cfg.DIR "pickle")] else []) ++
      (if cfg.CSV then
        [WriteEvent.csv (get_file_name name cfg.DIR "csv")] else [])) := by
  rcases List.exists_cons_of_ne_nil h with ⟨r, rs, rfl⟩
  rcases cfg with ⟨dir, j, s, p, c⟩
  cases j <;> cases s <;> cases p <;> cases c <;>
    simp [to_disk, write_data]

theorem historyParse_ne_nil {k : SystemKind} {page : Page} {name : String}
    (h : ∀ ft ∈ PARSING_MAP k, 0 < (page ft.2).length) :
    historyParse k page name ≠ [] := by
  unfold historyParse
  intro hcontra
  have hlen := congrArg List.length hcontra
  rw [pyZip_length] at hlen
  have hne : historyColumns k page ≠ [] := by
    unfold historyColumns
    simpa using PARSING_MAP_ne_nil k
  rcases List.exists_cons_of_ne_nil hne with ⟨c0, rest, hcols⟩
  rw [hcols] at hlen
  simp only [List.headD_cons] at hlen
  rw [minLen_append_head c0 rest _ (List.length_replicate _ _)] at hlen
  have hpos : 0 < minLen (c0 :: rest) := by
    have hall : ∀ l ∈ c0 :: rest, 0 < l.length := by
      intro l hl
      have : l ∈ historyColumns k page := by rw [hcols]; exact hl
      rcases List.mem_map.mp this with ⟨ft, hft, rfl⟩
      exact h ft hft
    exact foldl_min_pos rest c0.length (hall c0 (by simp))
      (fun l hl => hall l (List.mem_cons_of_mem c0 hl))
  simp only [List.length_nil] at hlen
  omega

/-! ## The claims -/

/-- C1, counterexample: with 2 submitted history tasks of which only 1
has completed, the `FIRST_COMPLETED` wait is already unblocked — as the
claim observes — and yet step 3 of `scrape` has not returned, because the
`with` block's implicit `shutdown(wait=True)` is still blocked; so the
claim that the run may exit before all history tasks finish is false. -/
theorem historyStage_firstCompleted_counterexample :
    waitReturns .FIRST_COMPLETED 1 2 = true ∧
    historyStageReturned 1 2 = false := by
  decide

/-- C1, amended: the explicit wait of the history stage uses
`FIRST_COMPLETED` and so waits only for one completion, but `scrape`
reaches its completion report (the finishing/elapsed-time prints) exactly
when every submitted history task has completed, because leaving the
`with ThreadPoolExecutor` block joins all workers. -/
theorem historyStage_returns_iff_all_done (completed total : Nat) :
    historyStageReturned completed total = true ↔ total ≤ completed := by
  simp only [historyStageReturned, waitReturns, executorExitReturns,
    Bool.and_eq_true, decide_eq_true_eq]
  omega

/-- C2: for every entity, when the fetch comes back with a status other
than HTTP 200, `scrape()` returns normally (no exception) and the
entity's row collection — empty since construction — stays empty. -/
theorem scrape_non200_leaves_rows_empty (st : Nat)
    (parsed : Except ParseError (List (List String))) (h : st ≠ 200) :
    templateScrape st parsed ⟨none, []⟩ = .ok ⟨some st, []⟩ := by
  unfold templateScrape
  rw [if_neg h]

/-- Witness for C2 at status 404. -/
theorem scrape_non200_leaves_rows_empty_witness :
    templateScrape 404 (.error .attributeError) ⟨none, []⟩
      = .ok ⟨some 404, []⟩ :=
  scrape_non200_leaves_rows_empty 404 (.error .attributeError) (by decide)

/-- C3, evaluation at the failing input: persisting an entity with zero
rows under the default configuration fails with the row-zero subscripting
`IndexError` (in `write_data`'s `__list[0]`), and still fails with
SQLite disabled (in the CSV writer's `__data[0].keys()`), contradicting
the claim that zero rows persist without error on the enabled output
paths. -/
theorem to_disk_empty_rows_raises :
    to_disk DEFAULTS "sobradinho" "sin" [] = .error .indexError ∧
    to_disk { DEFAULTS with SQLITE3 := false } "sobradinho" "sin" []
      = .error .indexError :=
  ⟨rfl, rfl⟩

/-- C4: in a run whose history stage holds one reservoir with a 404
fetch among reservoirs that fetch 200 with complete pages, every task
still runs (task exceptions stay captured in their futures, so the run
is not aborted), the 404 reservoir's task persists zero history rows,
and every other reservoir's task persists successfully with at least one
row. -/
theorem run_survives_404_history (pre post : List HistoryFetch)
    (bad : HistoryFetch) (hbad : bad.status = 404)
    (hok : ∀ t ∈ pre ++ post, t.status = 200 ∧ pageComplete t = true) :
    historyStage DEFAULTS (pre ++ bad :: post)
      = historyStage DEFAULTS pre ++
          scrape_history_of_reservoir DEFAULTS bad ::
            historyStage DEFAULTS post
    ∧ sqliteRowsWritten (scrape_history_of_reservoir DEFAULTS bad) = 0
    ∧ ∀ r ∈ historyStage DEFAULTS pre ++ historyStage DEFAULTS post,
        (∃ evs, r = .ok evs) ∧ 0 < sqliteRowsWritten r := by
  refine ⟨by simp [historyStage], ?_, ?_⟩
  · have hbad2 : ¬ (bad.status = 200) := by rw [hbad]; decide
    have hout : scrape_history_of_reservoir DEFAULTS bad
        = .error .indexError := by
      unfold scrape_history_of_reservoir
      rw [if_neg hbad2]
      exact to_disk_default_empty _ _
    rw [hout]
    rfl
  · intro r hr
    have hsrc : ∃ t ∈ pre ++ post,
        scrape_history_of_reservoir DEFAULTS t = r := by
      rcases List.mem_append.mp hr with h1 | h1
      · rcases List.mem_map.mp h1 with ⟨t, ht, rfl⟩
        exact ⟨t, List.mem_append_left _ ht, rfl⟩
      · rcases List.mem_map.mp h1 with ⟨t, ht, rfl⟩
        exact ⟨t, List.mem_append_right _ ht, rfl⟩
    rcases hsrc with ⟨t, ht, rfl⟩
    obtain ⟨hst, hpc⟩ := hok t ht
    have hrows : historyParse t.kind t.page t.name ≠ [] := by
      apply historyParse_ne_nil
      intro ft hft
      exact of_decide_eq_true (List.all_eq_true.mp hpc ft hft)
    unfold scrape_history_of_reservoir
    rw [if_pos hst]
    rcases List.exists_cons_of_ne_nil hrows with ⟨r0, rs, hcons⟩
    rw [hcons]
    rw [to_disk_writes DEFAULTS t.name (kindRowName t.kind) (r0 :: rs)
      (by simp)]
    refine ⟨⟨_, rfl⟩, ?_⟩
    simp [sqliteRowsWritten, DEFAULTS]

/-- Witness for C4: a concrete three-reservoir stage with the middle
fetch returning 404 persists zero rows for it. -/
theorem run_survives_404_history_witness :
    sqliteRowsWritten (scrape_history_of_reservoir DEFAULTS
      ⟨.sin, "bad_res", 404, fun _ => ["x"]⟩) = 0 :=
  (run_survives_404_history
    [⟨.sin, "good1", 200, fun _ => ["x"]⟩]
    [⟨.nordeste_e_semiarido, "good2", 200, fun _ => ["y"]⟩]
    ⟨.sin, "bad_res", 404, fun _ => ["x"]⟩ rfl (by decide)).2.1

/-- C5: on every valid non-empty raw name, `_clean` is idempotent
(cleaning its output returns that output unchanged), and its output has
no diacritic characters and no whitespace characters. -/
theorem normalize_idempotent_and_clean (x y : List Char)
    (hv : validName x) (h : clean x = .ok y) :
    clean y = .ok y ∧ ∀ c ∈ y, isDiacritic c = false ∧ isWsChar c = false := by
  obtain ⟨hx, hz⟩ := hv
  have hchars := clean_chars hx h
  have hne := clean_ne_nil hz h
  refine ⟨clean_of_cleaned hne hchars, ?_⟩
  intro c hc
  have h2 := hchars c hc
  unfold cleanedChar at h2
  simp only [Bool.and_eq_true, Bool.not_eq_true'] at h2
  exact ⟨h2.1.1.2, h2.1.1.1⟩

/-- Witness for C5 at the raw name `"Á b"`. -/
theorem normalize_idempotent_and_clean_witness :
    clean ['a', '_', 'b'] = .ok ['a', '_', 'b'] ∧
    ∀ c ∈ ['a', '_', 'b'], isDiacritic c = false ∧ isWsChar c = false :=
  normalize_idempotent_and_clean ['Á', ' ', 'b'] ['a', '_', 'b']
    (by unfold validName; exact ⟨by decide, by decide⟩) (by decide)

/-- C6: constructing an entity with an empty name fails loudly — the
cleaning error escapes the constructor uncaught — and with any non-empty
name construction (hence normalization) succeeds. -/
theorem normalize_empty_fails (address : List Char)
    (code : Option (List Char)) :
    templateInit address [] code = .error .emptyInput ∧
    ∀ name, name ≠ [] → ∃ st, templateInit address name code = .ok st := by
  constructor
  · rfl
  · intro name hne
    unfold templateInit clean
    rw [if_neg (by simpa [List.isEmpty_iff] using hne)]
    exact ⟨_, rfl⟩

/-- Witness for C6 at the name `"a"`. -/
theorem normalize_empty_fails_witness :
    templateInit [] [] none = .error .emptyInput ∧
    ∃ st, templateInit [] ['a'] none = .ok st :=
  ⟨(normalize_empty_fails [] none).1,
   (normalize_empty_fails [] none).2 ['a'] (by decide)⟩

/-- C7: every parsed history row has exactly the parsing map's field
count for its system kind plus the one reservoir-identity column, and
the number of rows equals the shortest field's match count (the zip
truncates to the shortest column). -/
theorem historyRow_shape (k : SystemKind) (page : Page) (name : String) :
    (∀ row ∈ historyParse k page name,
        row.length = (PARSING_MAP k).length + 1) ∧
    (historyParse k page name).length = minLen (historyColumns k page) := by
  constructor
  · intro row hrow
    unfold historyParse at hrow
    rcases pyZip_mem hrow with ⟨i, rfl⟩
    simp [historyColumns]
  · unfold historyParse
    rw [pyZip_length]
    have hne : historyColumns k page ≠ [] := by
      unfold historyColumns
      simpa using PARSING_MAP_ne_nil k
    rcases List.exists_cons_of_ne_nil hne with ⟨c0, rest, hcols⟩
    rw [hcols]
    simp only [List.headD_cons]
    exact minLen_append_head c0 rest _ (List.length_replicate _ _)

/-- Witness for C7: a SIN page with one match per field yields a
ten-field row (9 schema fields plus the reservoir column). -/
theorem historyRow_shape_witness :
    (["7", "7", "7", "7", "7", "7", "7", "7", "7", "r"] : List String).length
      = (PARSING_MAP .sin).length + 1 :=
  (historyRow_shape .sin (fun _ => ["7"]) "r").1 _ (by decide)

/-- C8, counterexample: the SQLite store is not one shared file per run —
two entities persisted in the same run and configuration write two
distinct per-entity `.db` files. -/
theorem sqlite_store_not_shared :
    to_disk { DEFAULTS with JSON := false, PICKLE := false, CSV := false }
        "sarsystems" "systems" [["a", "b"]]
      = .ok [.sqlite "__output__/sarsystems.db" "SYSTEMS" 1] ∧
    to_disk { DEFAULTS with JSON := false, PICKLE := false, CSV := false }
        "sobradinho" "sin" [["1"]]
      = .ok [.sqlite "__output__/sobradinho.db" "SIN" 1] ∧
    "__output__/sarsystems.db" ≠ "__output__/sobradinho.db" := by
  refine ⟨?_, ?_, ?_⟩ <;> decide

/-- C8, amended: each enabled format — the SQLite store included — writes
one file per entity named `<normalized_entity_name>.<ext>` inside `DIR`,
and the SQLite table name is the uppercased entity-kind (row-type)
identifier. -/
theorem per_entity_files_and_table (cfg : Config) (name rowTypeName : String)
    (rows : List (List String)) (h : rows ≠ []) :
    to_disk cfg name rowTypeName rows = .ok (
      (if cfg.SQLITE3 then
        [WriteEvent.sqlite (get_file_name name cfg.DIR "db")
          (pyUpper rowTypeName) rows.length] else []) ++
      (if cfg.JSON then
        [WriteEvent.json (get_file_name name cfg.DIR "json")] else []) ++
      (if cfg.PICKLE then
        [WriteEvent.pickle (get_file_name name cfg.DIR "pickle")] else []) ++
      (if cfg.CSV then
        [WriteEvent.csv (get_file_name name cfg.DIR "csv")] else [])) :=
  to_disk_writes cfg name rowTypeName rows h

/-- Witness for C8 (amended) at the default configuration. -/
theorem per_entity_files_and_table_witness :
    to_disk DEFAULTS "foo" "sin" [["1"]] = .ok
      [.sqlite "__output__/foo.db" "SIN" 1, .json "__output__/foo.json",
       .pickle "__output__/foo.pickle", .csv "__output__/foo.csv"] := by
  rw [per_entity_files_and_table DEFAULTS "foo" "sin" [["1"]] (by decide)]
  decide

/-- C9: under the bound `MAX_WORKERS = min(32, cpu_count + 4)`, every
pool state reachable in the history stage has at most `MAX_WORKERS`
tasks (hence fetches) in flight, for any number of reservoirs. -/
theorem bounded_pool_inflight (cpuCount n : Nat) (s : PoolState)
    (h : PoolReachable (MAX_WORKERS cpuCount) (poolStart n) s) :
    s.running ≤ MAX_WORKERS cpuCount := by
  induction h with
  | refl => simp [poolStart]
  | step hreach hstep ih =>
    cases hstep with
    | start q r f hr =>
      simp only at ih ⊢
      omega
    | finish q r f =>
      simp only at ih ⊢
      omega

/-- Witness for C9 at 8 cores and 100 reservoirs. -/
theorem bounded_pool_inflight_witness :
    (poolStart 100).running ≤ MAX_WORKERS 8 :=
  bounded_pool_inflight 8 100 (poolStart 100) PoolReachable.refl

/-- C10: in the SIN parsing map the `defluence_m3_s` and
`natural_flow_rate_m2_s` fields carry the same selector
(`"text-center coluna_5"`), so in every parsed SIN history row the two
fields hold the same value. -/
theorem sin_defluence_equals_natural (page : Page) (name : String) :
    (List.lookup "defluence_m3_s" (PARSING_MAP .sin)
        = some "text-center coluna_5" ∧
     List.lookup "natural_flow_rate_m2_s" (PARSING_MAP .sin)
        = some "text-center coluna_5") ∧
    ∀ row ∈ historyParse .sin page name,
      row.getD (fieldIndex .sin "defluence_m3_s") ""
        = row.getD (fieldIndex .sin "natural_flow_rate_m2_s") "" := by
  refine ⟨⟨by decide, by decide⟩, ?_⟩
  intro row hrow
  unfold historyParse at hrow
  rcases pyZip_mem hrow with ⟨i, rfl⟩
  have h1 : fieldIndex .sin "defluence_m3_s" = 2 := by decide
  have h2 : fieldIndex .sin "natural_flow_rate_m2_s" = 5 := by decide
  rw [h1, h2]
  simp [historyColumns, PARSING_MAP, List.getD]

/-- Witness for C10: the single row parsed from a constant SIN page has
equal defluence and natural-flow values. -/
theorem sin_defluence_equals_natural_witness :
    (["7", "7", "7", "7", "7", "7", "7", "7", "7", "r"] : List String).getD
        (fieldIndex .sin "defluence_m3_s") ""
      = (["7", "7", "7", "7", "7", "7", "7", "7", "7", "r"] : List String).getD
        (fieldIndex .sin "natural_flow_rate_m2_s") "" :=
  (sin_defluence_equals_natural (fun _ => ["7"]) "r").2 _ (by decide)

end ReservoirWrangler
